import Mathlib

/-!
Verification of the `Accept-Encoding` parsing core of the `headers`
repository: the coding-token type (`src/util/encoding.rs`) and the
`AcceptEncoding` field type (`src/common/accept_encoding.rs`).

Machine strings are modelled as Lean `String`s; the per-item parsing
infrastructure (`FlatCsv`, `QualityValue`) is not part of the provided
sources, so those pieces are modelled from the specification, with the
direction of the quality comparator fixed by the repository's own unit
tests (`iter` and `iter_sorted` in `src/common/accept_encoding.rs`).
Quality weights are represented as integer permille, as the spec
prescribes (`weight` in `[0, 1000]`).
-/

/-- The `Encoding` enum of `src/util/encoding.rs`: well-known
content-coding tokens plus a free-text `Ext` variant. -/
inductive Encoding where
  | Star
  | Chunked
  | Brotli
  | Gzip
  | Deflate
  | Compress
  | Identity
  | Trailers
  | Ext (s : String)
deriving DecidableEq, Repr

/-- `impl fmt::Display for Encoding` of `src/util/encoding.rs`: each
well-known variant prints its canonical spelling, `Ext` prints its
stored text verbatim. -/
def Encoding.format : Encoding → String
  | .Chunked => "chunked"
  | .Star => "*"
  | .Brotli => "br"
  | .Gzip => "gzip"
  | .Deflate => "deflate"
  | .Compress => "compress"
  | .Identity => "identity"
  | .Trailers => "trailers"
  | .Ext s => s

/-- `impl str::FromStr for Encoding` of `src/util/encoding.rs`:
case-sensitive exact match on the well-known spellings, with every
other string accepted verbatim as `Ext`; the `Result` is always `Ok`. -/
def Encoding.fromStr (s : String) : Except String Encoding :=
  if s = "*" then .ok .Star
  else if s = "chunked" then .ok .Chunked
  else if s = "br" then .ok .Brotli
  else if s = "deflate" then .ok .Deflate
  else if s = "gzip" then .ok .Gzip
  else if s = "compress" then .ok .Compress
  else if s = "identity" then .ok .Identity
  else if s = "trailers" then .ok .Trailers
  else .ok (.Ext s)

/-- The `STAR` constant of `src/common/accept_encoding.rs`:
`Encoding::Ext("*")`, the value `accepts` compares entries against. -/
def STAR : Encoding := .Ext "*"

/-- The well-known token spellings listed by the spec (section 4.1). -/
def wellKnownSpellings : List String :=
  ["*", "chunked", "br", "deflate", "gzip", "compress", "identity", "trailers"]

/-- Promotion described by the spec (section 3): an `Ext` whose text
equals a well-known spelling is promoted to the corresponding canonical
variant; every other token is left unchanged. -/
def Encoding.promote : Encoding → Encoding
  | .Ext s =>
      if s = "*" then .Star
      else if s = "chunked" then .Chunked
      else if s = "br" then .Brotli
      else if s = "deflate" then .Deflate
      else if s = "gzip" then .Gzip
      else if s = "compress" then .Compress
      else if s = "identity" then .Identity
      else if s = "trailers" then .Trailers
      else .Ext s
  | e => e

/-- A quality-weighted value specialised to `Encoding`, as in
`util/quality_value.rs` (not in the provided sources): a payload plus a
quality weight stored as integer permille in `[0, 1000]`. -/
structure QualityValue where
  value : Encoding
  quality : Nat
deriving DecidableEq, Repr

/-- Splits a character list on every occurrence of `c` (the behaviour
of Rust's `str::split`): always at least one piece, empty pieces kept. -/
def splitChar (c : Char) : List Char → List (List Char)
  | [] => [[]]
  | x :: xs =>
    match splitChar c xs with
    | [] => [[]]
    | r :: rs => if x = c then [] :: r :: rs else (x :: r) :: rs

/-- Whitespace trimming on both ends of a string (Rust `str::trim`). -/
def trimStr (s : String) : String :=
  ⟨((s.data.dropWhile Char.isWhitespace).reverse.dropWhile Char.isWhitespace).reverse⟩

/-- Modelled from the spec: the `FlatCsv` collaborator (section 6)
exposes the raw field value as a sequence of trimmed, comma-split item
strings. -/
def splitCommaItems (s : String) : List String :=
  (splitChar ',' s.data).map fun l => trimStr ⟨l⟩

/-- Splits a character list at the first `';'`, returning the part
before it and, when a `';'` occurs, the part after it. -/
def breakSemi : List Char → List Char × Option (List Char)
  | [] => ([], none)
  | x :: xs =>
    if x = ';' then ([], some xs)
    else
      let p := breakSemi xs
      (x :: p.1, p.2)

/-- Numeric value of a digit string, most significant digit first. -/
def digitsToNat (l : List Char) : Nat :=
  l.foldl (fun acc c => acc * 10 + (c.toNat - 48)) 0

/-- Modelled from the spec: the qvalue grammar of section 4.2,
`<digits>[.<digits>]` with at most 3 fractional digits and value in
`[0, 1]`; the result is the weight in permille. -/
def parseQVal (l : List Char) : Option Nat :=
  match splitChar '.' l with
  | [i] =>
      if i ≠ [] ∧ i.all Char.isDigit then
        let v := digitsToNat i * 1000
        if v ≤ 1000 then some v else none
      else none
  | [i, f] =>
      if i ≠ [] ∧ i.all Char.isDigit ∧ f.all Char.isDigit ∧ f.length ≤ 3 then
        let v := digitsToNat i * 1000 + digitsToNat f * 10 ^ (3 - f.length)
        if v ≤ 1000 then some v else none
      else none
  | _ => none

/-- Modelled from the spec: the weight parameter of section 4.2 must be
exactly `q=` followed by a qvalue. -/
def parseQParam (s : String) : Option Nat :=
  match s.data with
  | 'q' :: '=' :: rest => parseQVal rest
  | _ => none

/-- Modelled from the spec: single-item parse of section 4.2
(`FromStr` of `QualityValue<Encoding>`, absent from the provided
sources). Split on the first `;`; the trimmed left part must be a
non-empty coding token, handed to `Encoding` parse (section 4.1); a
right part, with surrounding optional whitespace removed, must be a
well-formed `q=` parameter; a missing weight defaults to `1.000`. -/
def parseQV (s : String) : Option QualityValue :=
  let p := breakSemi s.data
  let tok := trimStr ⟨p.1⟩
  if tok.data = [] then none
  else
    match Encoding.fromStr tok with
    | .error _ => none
    | .ok e =>
      match p.2 with
      | none => some ⟨e, 1000⟩
      | some r =>
        match parseQParam (trimStr ⟨r⟩) with
        | some q => some ⟨e, q⟩
        | none => none

/-- Modelled from the spec: the quality comparator of section 4.2
compares by weight only, with equal weights comparing equal; the
direction is fixed by the repository's own tests (`iter_sorted` expects
`gzip;q=0.5` before `compress` at weight 1), giving ascending weight.
This is the boolean `le` the stable sort of `AcceptEncoding::iter` is
run with. -/
def qvLe (a b : QualityValue) : Bool :=
  a.quality ≤ b.quality

/-- The `AcceptEncoding` field type of `src/common/accept_encoding.rs`:
a wrapper around the raw flattened backing text. -/
structure AcceptEncoding where
  value : String
deriving DecidableEq, Repr

/-- The successfully parsed items of the backing text, in their textual
left-to-right order (the `filter_map(|s| s.parse().ok())` stage of
`AcceptEncoding::iter`). -/
def AcceptEncoding.parsedItems (h : AcceptEncoding) : List QualityValue :=
  (splitCommaItems h.value).filterMap parseQV

/-- `AcceptEncoding::iter` of `src/common/accept_encoding.rs`: parse
each comma-separated item, silently drop failures, and stable-sort the
survivors with the quality comparator (Rust's `sort_by` is a stable
merge sort). -/
def AcceptEncoding.iter (h : AcceptEncoding) : List QualityValue :=
  h.parsedItems.mergeSort qvLe

/-- `AcceptEncoding::iter_encodings`: the same sequence with the weight
projected away. -/
def AcceptEncoding.iterEncodings (h : AcceptEncoding) : List Encoding :=
  h.iter.map QualityValue.value

/-- `AcceptEncoding::accepts` of `src/common/accept_encoding.rs`:
`self.iter_encodings().any(|e| e == STAR || &e == encoding)`. -/
def AcceptEncoding.accepts (h : AcceptEncoding) (encoding : Encoding) : Bool :=
  h.iterEncodings.any fun e => e == STAR || e == encoding

/-- Modelled from the spec: per-byte validity of an HTTP header value
as enforced by the external `HeaderValue` parser (visible bytes, space
and horizontal tab; no other controls, no DEL). -/
def headerValueCharOk (c : Char) : Bool :=
  c = '\t' || (32 ≤ c.toNat && c.toNat ≠ 127)

/-- A string every character of which may appear in a header value. -/
def headerValueOk (s : String) : Bool :=
  s.data.all headerValueCharOk

/-- The character for a decimal digit `d` (with `d` reduced mod 10). -/
def digitChar (d : Nat) : Char :=
  Char.ofNat (48 + d % 10)

/-- Drops trailing `'0'` characters. -/
def dropTrailingZeros (l : List Char) : List Char :=
  (l.reverse.dropWhile fun c => c = '0').reverse

/-- Modelled from the spec: rendering of a sub-unit weight (section
4.2), permille to text with trailing zeros trimmed, e.g. `500 ↦ "0.5"`,
`0 ↦ "0"`. -/
def qRender (w : Nat) : String :=
  if w = 0 then "0"
  else ⟨'0' :: '.' :: dropTrailingZeros [digitChar (w / 100), digitChar (w / 10), digitChar w]⟩

/-- Modelled from the spec: formatting of a quality-weighted value
(section 4.2): the bare token at weight `1.000`, otherwise
`<token>; q=<weight>` (the separator `"; q="` is fixed by the
repository's `from_iter_with_q` test). -/
def QualityValue.format (qv : QualityValue) : String :=
  if qv.quality = 1000 then qv.value.format
  else qv.value.format ++ "; q=" ++ qRender qv.quality

/-- `impl FromIterator<QualityValue<Encoding>> for AcceptEncoding` of
`src/common/accept_encoding.rs`: format every item, parse each piece of
text as a `HeaderValue` — the `expect` there panics when a piece holds
an illegal byte, modelled as `none` — and join the pieces with `", "`
(the `FlatCsv` collector). -/
def AcceptEncoding.fromIter (l : List QualityValue) : Option AcceptEncoding :=
  if l.all fun qv => headerValueOk qv.format then
    some ⟨String.intercalate ", " (l.map QualityValue.format)⟩
  else none

/-- What sections 4.1 and 4.2 guarantee about a well-formed
quality-weighted token: any extension text consists of legal header
bytes, and the weight is a permille in `[0, 1000]`. -/
def QualityValue.wellFormed (qv : QualityValue) : Prop :=
  (match qv.value with
   | .Ext s => headerValueOk s = true
   | _ => True) ∧ qv.quality ≤ 1000

/-! ### Theorems -/

attribute [local semireducible] List.mergeSort List.merge

/-- The quality comparator is transitive. -/
theorem qvLe_trans (a b c : QualityValue) (hab : qvLe a b) (hbc : qvLe b c) :
    qvLe a c := by
  simp only [qvLe, decide_eq_true_eq] at *
  omega

/-- The quality comparator is total. -/
theorem qvLe_total (a b : QualityValue) : qvLe a b || qvLe b a := by
  simp only [qvLe, Bool.or_eq_true, decide_eq_true_eq]
  omega

/-- The stable sort inside `iter` leaves each weight class in its
original relative order. -/
theorem mergeSort_filter_quality (l : List QualityValue) (w : Nat) :
    (l.mergeSort qvLe).filter (fun qv => qv.quality == w) =
      l.filter (fun qv => qv.quality == w) := by
  have hBpair : (l.filter (fun qv => qv.quality == w)).Pairwise
      (fun a b => qvLe a b = true) := by
    apply List.pairwise_of_forall_mem_list
    intro a ha b hb
    have ha2 := (List.mem_filter.mp ha).2
    have hb2 := (List.mem_filter.mp hb).2
    simp only [beq_iff_eq] at ha2 hb2
    simp [qvLe, ha2, hb2]
  have h1 : List.Sublist (l.filter (fun qv => qv.quality == w)) (l.mergeSort qvLe) :=
    List.sublist_mergeSort qvLe_trans qvLe_total hBpair (List.filter_sublist l)
  have h2 : List.Sublist (l.filter (fun qv => qv.quality == w))
      ((l.mergeSort qvLe).filter (fun qv => qv.quality == w)) := by
    have h3 := h1.filter (fun qv => qv.quality == w)
    rwa [List.filter_filter, show (fun a : QualityValue =>
      (a.quality == w) && (a.quality == w)) = fun qv => qv.quality == w by
        funext a; rw [Bool.and_self]] at h3
  have hlen : ((l.mergeSort qvLe).filter (fun qv => qv.quality == w)).length =
      (l.filter (fun qv => qv.quality == w)).length :=
    ((List.mergeSort_perm l qvLe).filter _).length_eq
  exact (h2.eq_of_length hlen.symm).symm

/-- C1 (counterexample): on `"gzip;q=0"` the only entry is the
candidate itself with weight exactly 0, yet `accepts` grants it; and on
`"*"` the list holds a wildcard entry with full weight 1.000, yet
`accepts(Deflate)` is refused (the parsed wildcard is `Star`, which is
never equal to the `Ext "*"` constant `accepts` tests against). Both
contradict the claimed weight-aware acceptance rule. -/
theorem accepts_weight_counterexample :
    AcceptEncoding.iter ⟨"gzip;q=0"⟩ = [⟨.Gzip, 0⟩] ∧
    AcceptEncoding.accepts ⟨"gzip;q=0"⟩ .Gzip = true ∧
    AcceptEncoding.iter ⟨"*"⟩ = [⟨.Star, 1000⟩] ∧
    AcceptEncoding.accepts ⟨"*"⟩ .Deflate = false := by
  refine ⟨by decide, by decide, by decide, by decide⟩

/-- C1 (amended): `accepts(candidate)` is true iff some successfully
parsed entry has a value equal to the `STAR` constant (`Ext "*"`) or
equal to `candidate`; quality weights play no role. -/
theorem accepts_iff_member (h : AcceptEncoding) (e : Encoding) :
    AcceptEncoding.accepts h e = true ↔
      ∃ qv ∈ h.parsedItems, qv.value = STAR ∨ qv.value = e := by
  simp only [AcceptEncoding.accepts, AcceptEncoding.iterEncodings,
    AcceptEncoding.iter, List.any_map, List.any_eq_true, Function.comp,
    Bool.or_eq_true, beq_iff_eq, List.mem_map, List.mem_mergeSort]
  constructor
  · rintro ⟨x, ⟨qv, hqv, rfl⟩, hor⟩
    exact ⟨qv, hqv, hor⟩
  · rintro ⟨qv, hqv, hor⟩
    exact ⟨qv.value, ⟨qv, hqv, rfl⟩, hor⟩

/-- C2 (counterexample): on `"compress, gzip; q=0.5"` both items parse,
yet the first yielded entry has weight 0.5 and the second weight 1.0,
so `iter()` is not sorted in descending quality order. -/
theorem iter_not_descending_counterexample :
    AcceptEncoding.iter ⟨"compress, gzip; q=0.5"⟩ =
      [⟨.Gzip, 500⟩, ⟨.Compress, 1000⟩] ∧
    ¬ (AcceptEncoding.iter ⟨"compress, gzip; q=0.5"⟩).Pairwise
        (fun a b => b.quality ≤ a.quality) := by
  refine ⟨by decide, ?_⟩
  intro hp
  have h1 : AcceptEncoding.iter ⟨"compress, gzip; q=0.5"⟩ =
      [⟨.Gzip, 500⟩, ⟨.Compress, 1000⟩] := by decide
  rw [h1] at hp
  have := List.rel_of_pairwise_cons hp (List.mem_singleton.mpr rfl)
  simp at this

/-- C2 (amended): `iter()` yields exactly the successfully parsed
entries (a permutation of them), sorted in ascending quality order, and
within each weight class the original left-to-right textual order is
preserved (stable sort). -/
theorem iter_sorted_stable (h : AcceptEncoding) :
    h.iter.Perm h.parsedItems ∧
    h.iter.Pairwise (fun a b => a.quality ≤ b.quality) ∧
    ∀ w : Nat, h.iter.filter (fun qv => qv.quality == w) =
      h.parsedItems.filter (fun qv => qv.quality == w) := by
  refine ⟨List.mergeSort_perm _ _, ?_, fun w => mergeSort_filter_quality _ w⟩
  have hs := List.sorted_mergeSort qvLe_trans qvLe_total h.parsedItems
  exact hs.imp fun hab => by simpa [qvLe] using hab

/-- C3: `iter()` on the field value `"compress, gzip; q=0.5"` yields
exactly gzip at weight 0.5 (500 permille) followed by compress at
weight 1.0, matching the repository's `iter_sorted` test. -/
theorem iter_sorted_concrete :
    AcceptEncoding.iter ⟨"compress, gzip; q=0.5"⟩ =
      [⟨.Gzip, 500⟩, ⟨.Compress, 1000⟩] := by
  decide

/-- C4: decoding never fails on a malformed item: for every backing
text, `iter()` yields exactly (a reordering of) the items whose
single-item parse succeeded; concretely, on `"gzip, ;q=bogus, br"` the
middle item fails to parse and the other two come through at weight
1.000, preserving their order. -/
theorem iter_drops_malformed :
    (∀ s : String,
      (AcceptEncoding.iter ⟨s⟩).Perm ((splitCommaItems s).filterMap parseQV)) ∧
    splitCommaItems "gzip, ;q=bogus, br" = ["gzip", ";q=bogus", "br"] ∧
    parseQV ";q=bogus" = none ∧
    AcceptEncoding.iter ⟨"gzip, ;q=bogus, br"⟩ =
      [⟨.Gzip, 1000⟩, ⟨.Brotli, 1000⟩] := by
  exact ⟨fun s => List.mergeSort_perm _ _, by decide, by decide, by decide⟩

/-- C5: the empty backing text decodes to zero items rather than an
error, and no candidate is accepted. -/
theorem empty_field_iter_accepts :
    AcceptEncoding.iter ⟨""⟩ = [] ∧
    ∀ e : Encoding, AcceptEncoding.accepts ⟨""⟩ e = false := by
  have h0 : AcceptEncoding.iter ⟨""⟩ = [] := by decide
  refine ⟨h0, fun e => ?_⟩
  simp [AcceptEncoding.accepts, AcceptEncoding.iterEncodings, h0]

/-- C6: single-token parse never fails; each well-known spelling maps
to its canonical variant and every other non-empty string becomes an
`Ext` carrying the text verbatim. -/
theorem fromStr_total_mapping :
    (∀ s : String, ∃ e, Encoding.fromStr s = .ok e) ∧
    (Encoding.fromStr "chunked" = .ok .Chunked ∧
     Encoding.fromStr "br" = .ok .Brotli ∧
     Encoding.fromStr "gzip" = .ok .Gzip ∧
     Encoding.fromStr "deflate" = .ok .Deflate ∧
     Encoding.fromStr "compress" = .ok .Compress ∧
     Encoding.fromStr "identity" = .ok .Identity ∧
     Encoding.fromStr "trailers" = .ok .Trailers ∧
     Encoding.fromStr "*" = .ok .Star) ∧
    ∀ s : String, s ≠ "" → s ∉ wellKnownSpellings →
      Encoding.fromStr s = .ok (.Ext s) := by
  refine ⟨?_, ⟨rfl, rfl, rfl, rfl, rfl, rfl, rfl, rfl⟩, ?_⟩
  · intro s
    unfold Encoding.fromStr
    split_ifs <;> exact ⟨_, rfl⟩
  · intro s _ hs
    simp only [wellKnownSpellings, List.mem_cons, List.not_mem_nil, or_false,
      not_or] at hs
    obtain ⟨h1, h2, h3, h4, h5, h6, h7, h8⟩ := hs
    simp [Encoding.fromStr, h1, h2, h3, h4, h5, h6, h7, h8]

/-- C6 (witness): the extension branch at the concrete non-empty,
non-well-known token `"zstd"`. -/
theorem fromStr_total_mapping_witness :
    Encoding.fromStr "zstd" = .ok (.Ext "zstd") :=
  fromStr_total_mapping.2.2 "zstd" (by decide) (by decide)

/-- C7: round-trip — parsing the formatted text of any token gives the
token back, up to the promotion that sends an `Ext` holding a
well-known spelling to its canonical variant; promotion moves no
other token. -/
theorem parse_format_roundtrip :
    (∀ t : Encoding, Encoding.fromStr t.format = .ok t.promote) ∧
    (∀ s : String, Encoding.promote (.Ext s) = .Ext s ∨ s ∈ wellKnownSpellings) ∧
    Encoding.promote .Star = .Star ∧
    Encoding.promote .Chunked = .Chunked ∧
    Encoding.promote .Brotli = .Brotli ∧
    Encoding.promote .Gzip = .Gzip ∧
    Encoding.promote .Deflate = .Deflate ∧
    Encoding.promote .Compress = .Compress ∧
    Encoding.promote .Identity = .Identity ∧
    Encoding.promote .Trailers = .Trailers := by
  refine ⟨?_, ?_, by decide, by decide, by decide, by decide, by decide,
    by decide, by decide, by decide⟩
  · intro t
    cases t
    case Ext s =>
      show (if s = "*" then Except.ok Encoding.Star
        else if s = "chunked" then .ok .Chunked
        else if s = "br" then .ok .Brotli
        else if s = "deflate" then .ok .Deflate
        else if s = "gzip" then .ok .Gzip
        else if s = "compress" then .ok .Compress
        else if s = "identity" then .ok .Identity
        else if s = "trailers" then .ok .Trailers
        else .ok (.Ext s)) = Except.ok (Encoding.promote (.Ext s))
      simp only [Encoding.promote]
      split_ifs <;> rfl
    all_goals rfl
  · intro s
    by_cases hs : s ∈ wellKnownSpellings
    · exact .inr hs
    · left
      simp only [wellKnownSpellings, List.mem_cons, List.not_mem_nil, or_false,
        not_or] at hs
      obtain ⟨h1, h2, h3, h4, h5, h6, h7, h8⟩ := hs
      simp [Encoding.promote, h1, h2, h3, h4, h5, h6, h7, h8]

/-- C9: the dedicated `Star` variant and the `STAR` constant
(`Ext "*"`) both format to `"*"` yet are different values; `"*"`
parses to `Star`, never to `STAR`; hence formatting is not injective
and equality of tokens is not determined by their formatted text. -/
theorem star_represents_twice :
    Encoding.format .Star = "*" ∧
    Encoding.format STAR = "*" ∧
    STAR ≠ Encoding.Star ∧
    Encoding.fromStr "*" = .ok .Star ∧
    STAR = .Ext "*" ∧
    ∃ a b : Encoding, a ≠ b ∧ Encoding.format a = Encoding.format b :=
  ⟨rfl, rfl, by decide, rfl, rfl, ⟨.Star, STAR, by decide, rfl⟩⟩

/-- C10: single-token parse of the empty string does not fail: it
yields an `Ext` holding the empty string. -/
theorem fromStr_empty :
    Encoding.fromStr "" = .ok (.Ext "") := by
  rfl

/-- Decimal digit characters are legal header-value bytes. -/
theorem digitChar_ok (d : Nat) : headerValueCharOk (digitChar d) = true := by
  unfold digitChar
  have h : d % 10 < 10 := Nat.mod_lt _ (by decide)
  generalize hk : d % 10 = k
  rw [hk] at h
  interval_cases k <;> decide

/-- Dropping trailing zeros only removes characters. -/
theorem mem_dropTrailingZeros {c : Char} {l : List Char}
    (h : c ∈ dropTrailingZeros l) : c ∈ l := by
  unfold dropTrailingZeros at h
  rw [List.mem_reverse] at h
  have := (List.dropWhile_sublist (fun x => x = '0')).subset h
  exact List.mem_reverse.mp this

/-- The rendered weight consists of legal header-value bytes. -/
theorem qRender_ok (w : Nat) : headerValueOk (qRender w) = true := by
  unfold qRender
  split_ifs
  · decide
  · show (('0' :: '.' :: dropTrailingZeros
      [digitChar (w / 100), digitChar (w / 10), digitChar w]).all headerValueCharOk) = true
    rw [List.all_eq_true]
    intro c hc
    rw [List.mem_cons, List.mem_cons] at hc
    rcases hc with rfl | rfl | h
    · decide
    · decide
    · have h1 := mem_dropTrailingZeros h
      simp only [List.mem_cons, List.not_mem_nil, or_false] at h1
      rcases h1 with rfl | rfl | rfl <;> exact digitChar_ok _

/-- The formatted text of a coding token whose extension payload (if
any) is made of legal header-value bytes is itself made of legal
header-value bytes. -/
theorem encoding_format_ok (e : Encoding)
    (h : match e with
         | .Ext s => headerValueOk s = true
         | _ => True) :
    headerValueOk e.format = true := by
  cases e
  case Ext s => exact h
  all_goals decide

/-- Formatting a well-formed quality-weighted value yields legal
header-value text, so the `HeaderValue` conversion inside the
`FromIterator` implementation cannot panic on it. -/
theorem qv_format_ok (qv : QualityValue) (h : qv.wellFormed) :
    headerValueOk qv.format = true := by
  unfold QualityValue.format
  split_ifs
  · exact encoding_format_ok qv.value h.1
  · show ((qv.value.format ++ "; q=" ++ qRender qv.quality).data.all headerValueCharOk) = true
    rw [String.data_append, String.data_append, List.all_append, List.all_append]
    refine Bool.and_eq_true_iff.mpr ⟨Bool.and_eq_true_iff.mpr ⟨?_, by decide⟩, ?_⟩
    · exact encoding_format_ok qv.value h.1
    · exact qRender_ok qv.quality

/-- C8: building an `AcceptEncoding` from a sequence of well-formed
quality-weighted tokens cannot fail — the panic branch of the internal
`HeaderValue` conversion is unreachable — and the backing text is the
items formatted individually and joined with `", "`. -/
theorem fromIter_builds_joined_text (l : List QualityValue)
    (h : ∀ qv ∈ l, qv.wellFormed) :
    AcceptEncoding.fromIter l =
      some ⟨String.intercalate ", " (l.map QualityValue.format)⟩ := by
  unfold AcceptEncoding.fromIter
  rw [if_pos]
  rw [List.all_eq_true]
  intro qv hqv
  exact qv_format_ok qv (h qv hqv)

/-- C8 (witness): the construction at the concrete well-formed sequence
`[gzip@1.0, deflate@0.5]`, reproducing the repository's
`from_iter_with_q` test value `"gzip, deflate; q=0.5"`. -/
theorem fromIter_builds_joined_text_witness :
    AcceptEncoding.fromIter [⟨.Gzip, 1000⟩, ⟨.Deflate, 500⟩] =
      some ⟨String.intercalate ", "
        ([⟨.Gzip, 1000⟩, ⟨.Deflate, 500⟩].map QualityValue.format)⟩ :=
  fromIter_builds_joined_text [⟨.Gzip, 1000⟩, ⟨.Deflate, 500⟩]
    (by intro qv hqv
        rw [List.mem_cons, List.mem_cons] at hqv
        rcases hqv with rfl | rfl | h
        · exact ⟨trivial, by decide⟩
        · exact ⟨trivial, by decide⟩
        · exact absurd h (List.not_mem_nil qv))
